import Mathlib

/-!
Verification development for the Score repository
(static-analysis / LLM vulnerability-detection evaluation).

Shallow embedding of the core "Finding-Recovery and Fuzzy-Matching Engine":

* Match Engine (src/Score/compare_with_ground_truth.py, compare) —
  candidates and ground-truth entries are (contract, bug_type, line)
  tuples; Python ints are modelled as ℤ, Python strings as String.
* Metrics Calculator (src/Score/compare_with_ground_truth.py,
  compute_metrics) — Python floats are modelled as exact rationals ℚ;
  Python round(x, 4) is modelled as decimal rounding half-to-even.
* Category breakdown (src/Score/Benchmark analysis/generate_metrics_csv.py,
  generate_metrics_by_bug_type).
* Text Recovery Parser (src/Score/evaluation_helpers.py,
  extract_json_from_text) — Python json.loads is modelled by a strict
  JSON parser over a JSON value type; the optional tolerant parser
  (demjson3) is a parameter, since its availability is
  environment-dependent.
* Finding Normalizer (src/Score/evaluation_helpers.py,
  coerce_line_number) — Python values are modelled by an inductive type.
-/

namespace Score

/-! ## Data model for the Match Engine -/

/-- A (contract, bug_type, line) tuple: used for LLM findings, for
ground-truth entries, and for the FP / FN result records (which in the
source are dicts with exactly these three fields). -/
structure Entry where
  contract : String
  bug_type : String
  line : ℤ
deriving DecidableEq, Repr

/-- A true-positive record, as built in compare:
`{contract, bug_type, llm_line, truth_line, diff}` with
`diff = llm_line - truth_line`. -/
structure TPRec where
  contract : String
  bug_type : String
  llm_line : ℤ
  truth_line : ℤ
  diff : ℤ
deriving DecidableEq, Repr

/-- The result of compare: `{"TP": tp, "FP": fp, "FN": fn}`. -/
structure CompareResult where
  TP : List TPRec
  FP : List Entry
  FN : List Entry
deriving DecidableEq, Repr

/-! ## Match Engine (compare, compare_with_ground_truth.py lines 55-100) -/

/-- The ground-truth bucket for key (contract, bug_type): the lines of
all ground-truth entries with that exact key, in ground-truth iteration
order.  Mirrors the defaultdict gt_by_key built on lines 61-63. -/
def gt_lines_for (ground_truth : List Entry) (c b : String) : List ℤ :=
  (ground_truth.filter (fun e => decide (e.contract = c ∧ e.bug_type = b))).map
    (fun e => e.line)

/-- The inner loop of compare (lines 70-81): scan the bucket in order and
return the first truth line within tolerance of the candidate line.
Note the source does NOT skip entries already recorded in gt_matched. -/
def findMatch (lines : List ℤ) (line_tolerance ln : ℤ) : Option ℤ :=
  lines.find? (fun truth_ln => decide (|truth_ln - ln| ≤ line_tolerance))

/-- The candidate loop of compare (lines 66-88), processing findings in
input order.  Returns (tp list, fp list, gt_matched).  gt_matched is a
set in the source; it is modelled as a list used only for membership. -/
def compareGo (ground_truth : List Entry) (line_tolerance : ℤ) :
    List Entry → List TPRec × List Entry × List Entry
  | [] => ([], [], [])
  | f :: rest =>
    let r := compareGo ground_truth line_tolerance rest
    match findMatch (gt_lines_for ground_truth f.contract f.bug_type)
        line_tolerance f.line with
    | some truth_ln =>
      (⟨f.contract, f.bug_type, f.line, truth_ln, f.line - truth_ln⟩ :: r.1,
       r.2.1,
       ⟨f.contract, f.bug_type, truth_ln⟩ :: r.2.2)
    | none =>
      (r.1, ⟨f.contract, f.bug_type, f.line⟩ :: r.2.1, r.2.2)

/-- compare (compare_with_ground_truth.py lines 55-100).  The Python
ground truth is a set; it is modelled as the list of entries in the
set's iteration order (on which the source's bucket order depends).
False negatives are the ground-truth entries never added to gt_matched
(lines 91-98). -/
def compare (llm_findings ground_truth : List Entry) (line_tolerance : ℤ) :
    CompareResult :=
  let r := compareGo ground_truth line_tolerance llm_findings
  { TP := r.1
    FP := r.2.1
    FN := ground_truth.filter (fun e => decide (e ∉ r.2.2)) }

/-- The match the candidate loop finds for one candidate: the first
in-tolerance line of the candidate's (contract, bug_type) bucket. -/
def matchFor (ground_truth : List Entry) (line_tolerance : ℤ) (f : Entry) :
    Option ℤ :=
  findMatch (gt_lines_for ground_truth f.contract f.bug_type) line_tolerance
    f.line

/-- The TP record built for candidate f matched at truth line truth_ln. -/
def tpRecOf (f : Entry) (truth_ln : ℤ) : TPRec :=
  ⟨f.contract, f.bug_type, f.line, truth_ln, f.line - truth_ln⟩

/-- The ground-truth entry a TP record refers to. -/
def truthEntryOf (r : TPRec) : Entry := ⟨r.contract, r.bug_type, r.truth_line⟩

/-- The candidate finding a TP record refers to. -/
def candEntryOf (r : TPRec) : Entry := ⟨r.contract, r.bug_type, r.llm_line⟩

/-! ## Metrics Calculator (compute_metrics, lines 103-123) -/

/-- Round a rational to the nearest integer, ties to even — the rounding
mode of Python's builtin round().  Implemented on the numerator and
denominator so that it evaluates by kernel reduction: f is the floor of
q and r2 compares twice the fractional part of q with 1. -/
def roundHalfEven (q : ℚ) : ℤ :=
  let f := q.num.fdiv q.den
  let r2 := 2 * (q.num - f * q.den)
  if r2 < (q.den : ℤ) then f
  else if (q.den : ℤ) < r2 then f + 1
  else if f % 2 = 0 then f else f + 1

/-- Python round(x, 4): round to 4 decimal places, ties to even.
(Floats are modelled as exact rationals.) -/
def round4 (q : ℚ) : ℚ := (roundHalfEven (q * 10000) : ℚ) / 10000

/-- The result of compute_metrics. -/
structure Metrics where
  precision : ℚ
  «recall» : ℚ
  f1_score : ℚ
deriving DecidableEq, Repr

/-- compute_metrics (compare_with_ground_truth.py lines 103-123).
Counts are Python ints obtained from len(), hence ℕ. -/
def compute_metrics (tp_count fp_count fn_count : ℕ) : Metrics :=
  let precision : ℚ :=
    if tp_count + fp_count > 0 then
      (tp_count : ℚ) / ((tp_count : ℚ) + (fp_count : ℚ))
    else 0
  let rcl : ℚ :=
    if tp_count + fn_count > 0 then
      (tp_count : ℚ) / ((tp_count : ℚ) + (fn_count : ℚ))
    else 0
  let f1 : ℚ :=
    if precision + rcl > 0 then
      2 * (precision * rcl) / (precision + rcl)
    else 0
  { precision := round4 precision
    «recall» := round4 rcl
    f1_score := round4 f1 }

/-! ## Category breakdown (generate_metrics_csv.py lines 10-80) -/

/-- One row of the metrics-by-bug-type CSV. -/
structure MetricsRow where
  Bug_Type : String
  TP : ℕ
  FP : ℕ
  TN : ℕ
  FN : ℕ
  Precision : ℚ
  Recall : ℚ
  F1_Score : ℚ
deriving DecidableEq, Repr

/-- The per-bug-type row built on lines 32-51 of generate_metrics_csv.py:
counts of TP/FP/FN records whose bug_type equals the key, the three
metric formulas, rounding to 4 decimal places, and TN fixed at 0. -/
def rowFor (tp_list : List TPRec) (fp_list fn_list : List Entry)
    (bug_type : String) : MetricsRow :=
  let tp := tp_list.countP (fun r => decide (r.bug_type = bug_type))
  let fp := fp_list.countP (fun r => decide (r.bug_type = bug_type))
  let fn := fn_list.countP (fun r => decide (r.bug_type = bug_type))
  let precision : ℚ :=
    if tp + fp > 0 then (tp : ℚ) / ((tp : ℚ) + (fp : ℚ)) else 0
  let rcl : ℚ :=
    if tp + fn > 0 then (tp : ℚ) / ((tp : ℚ) + (fn : ℚ)) else 0
  let f1 : ℚ :=
    if precision + rcl > 0 then 2 * (precision * rcl) / (precision + rcl)
    else 0
  { Bug_Type := bug_type, TP := tp, FP := fp, TN := 0, FN := fn
    Precision := round4 precision, Recall := round4 rcl
    F1_Score := round4 f1 }

/-- The Overall row appended on lines 53-71: sum the TP/FP/FN counts of
the per-bug-type rows, then apply the same three formulas to the sums. -/
def overallRow (rows : List MetricsRow) : MetricsRow :=
  let total_tp : ℕ := (rows.map (fun m => m.TP)).sum
  let total_fp : ℕ := (rows.map (fun m => m.FP)).sum
  let total_fn : ℕ := (rows.map (fun m => m.FN)).sum
  let precision : ℚ :=
    if total_tp + total_fp > 0 then
      (total_tp : ℚ) / ((total_tp : ℚ) + (total_fp : ℚ))
    else 0
  let rcl : ℚ :=
    if total_tp + total_fn > 0 then
      (total_tp : ℚ) / ((total_tp : ℚ) + (total_fn : ℚ))
    else 0
  let f1 : ℚ :=
    if precision + rcl > 0 then 2 * (precision * rcl) / (precision + rcl)
    else 0
  { Bug_Type := "Overall", TP := total_tp, FP := total_fp, TN := 0
    FN := total_fn
    Precision := round4 precision, Recall := round4 rcl
    F1_Score := round4 f1 }

/-- The distinct bug types occurring in the TP/FP/FN record lists — the
keys of the defaultdict built on lines 19-28 (each record's bug_type is
inserted; dict keys are distinct). -/
def bugTypeKeys (tp_list : List TPRec) (fp_list fn_list : List Entry) :
    List String :=
  (tp_list.map (fun r => r.bug_type) ++ fp_list.map (fun r => r.bug_type)
    ++ fn_list.map (fun r => r.bug_type)).dedup

/-- generate_metrics_by_bug_type (generate_metrics_csv.py lines 10-80,
CSV writing omitted): group the records by bug_type, emit one row per
key in sorted key order, then append the Overall row computed from the
per-row count sums. -/
def generate_metrics_by_bug_type (tp_list : List TPRec)
    (fp_list fn_list : List Entry) : List MetricsRow :=
  let rows := (List.insertionSort (fun a b : String => a ≤ b)
      (bugTypeKeys tp_list fp_list fn_list)).map
    (rowFor tp_list fp_list fn_list)
  rows ++ [overallRow rows]

/-! ## JSON values and a strict parser, modelling Python json.loads

Python JSON values are modelled by an inductive type; int and float
numbers are both modelled as ℚ.  The model of json.loads is a strict
recursive-descent parser over the character list, with a fuel argument
for termination (fuel = input length + 1 always suffices, since every
recursive step consumes input).  Deviations from CPython's json module,
none of which matter for any input appearing in this development:
the Infinity and NaN constants are rejected, and \uXXXX escapes are
decoded without surrogate-pair joining. -/

inductive JSON where
  | null
  | bool (b : Bool)
  | num (q : ℚ)
  | str (s : String)
  | arr (elems : List JSON)
  | obj (members : List (String × JSON))

/-- Whether a JSON value is an object (a Python dict). -/
def JSON.isObj : JSON → Bool
  | .obj _ => true
  | _ => false

/-- JSON whitespace (space, tab, newline, carriage return). -/
def isJsonWs (c : Char) : Bool :=
  c = ' ' || c = '\t' || c = '\n' || c = '\r'

/-- Drop leading JSON whitespace. -/
def skipWs : List Char → List Char
  | [] => []
  | c :: cs => if isJsonWs c then skipWs cs else c :: cs

/-- The numeric value of a decimal digit character. -/
def digitVal (c : Char) : ℕ := c.toNat - '0'.toNat

/-- Take a maximal run of decimal digits. -/
def takeDigits : List Char → List ℕ × List Char
  | [] => ([], [])
  | c :: cs =>
    if c.isDigit then
      let r := takeDigits cs
      (digitVal c :: r.1, r.2)
    else ([], c :: cs)

/-- Decimal digits to a natural number. -/
def digitsToNat (ds : List ℕ) : ℕ := ds.foldl (fun a d => 10 * a + d) 0

/-- Hexadecimal digit value, if any. -/
def hexVal (c : Char) : Option ℕ :=
  if c.isDigit then some (digitVal c)
  else if 'a' ≤ c ∧ c ≤ 'f' then some (c.toNat - 'a'.toNat + 10)
  else if 'A' ≤ c ∧ c ≤ 'F' then some (c.toNat - 'A'.toNat + 10)
  else none

/-- Parse a JSON number (grammar: -? (0 | [1-9][0-9]*) frac? exp?),
returning its exact rational value.  Built with mkRat and integer
arithmetic so that it evaluates by kernel reduction. -/
def parseNumber (cs : List Char) : Option (ℚ × List Char) :=
  let sign : Bool × List Char :=
    match cs with
    | '-' :: r => (true, r)
    | r => (false, r)
  let intPart : Option (List ℕ × List Char) :=
    match sign.2 with
    | '0' :: r => some ([0], r)
    | c :: r =>
      if c.isDigit then
        let t := takeDigits r
        some (digitVal c :: t.1, t.2)
      else none
    | [] => none
  match intPart with
  | none => none
  | some (ids, cs1) =>
    let fracPart : List ℕ × List Char :=
      match cs1 with
      | '.' :: c :: r =>
        if c.isDigit then
          let t := takeDigits r
          (digitVal c :: t.1, t.2)
        else ([], cs1)
      | _ => ([], cs1)
    let fds := fracPart.1
    let expPart : Option (ℤ × List Char) :=
      match fracPart.2 with
      | 'e' :: r =>
        (match r with
         | '+' :: c :: r2 =>
           if c.isDigit then
             let t := takeDigits r2
             some ((digitsToNat (digitVal c :: t.1) : ℤ), t.2)
           else some (0, fracPart.2)
         | '-' :: c :: r2 =>
           if c.isDigit then
             let t := takeDigits r2
             some (-(digitsToNat (digitVal c :: t.1) : ℤ), t.2)
           else some (0, fracPart.2)
         | c :: r2 =>
           if c.isDigit then
             let t := takeDigits r2
             some ((digitsToNat (digitVal c :: t.1) : ℤ), t.2)
           else some (0, fracPart.2)
         | [] => some (0, fracPart.2))
      | 'E' :: r =>
        (match r with
         | '+' :: c :: r2 =>
           if c.isDigit then
             let t := takeDigits r2
             some ((digitsToNat (digitVal c :: t.1) : ℤ), t.2)
           else some (0, fracPart.2)
         | '-' :: c :: r2 =>
           if c.isDigit then
             let t := takeDigits r2
             some (-(digitsToNat (digitVal c :: t.1) : ℤ), t.2)
           else some (0, fracPart.2)
         | c :: r2 =>
           if c.isDigit then
             let t := takeDigits r2
             some ((digitsToNat (digitVal c :: t.1) : ℤ), t.2)
         else some (0, fracPart.2)
         | [] => some (0, fracPart.2))
      | r => some (0, r)
    match expPart with
    | none => none
    | some (e, cs2) =>
      let mant : ℤ := (digitsToNat (ids ++ fds) : ℤ)
      let mant : ℤ := if sign.1 then -mant else mant
      let scale : ℤ := e - (fds.length : ℤ)
      let q : ℚ :=
        if 0 ≤ scale then mkRat (mant * (10 : ℤ) ^ scale.toNat) 1
        else mkRat mant ((10 : ℕ) ^ (-scale).toNat)
      some (q, cs2)

/-- Parse the body of a JSON string (the opening quote already
consumed), decoding the standard escapes.  Strict mode: raw control
characters below 0x20 are rejected, as in json.loads. -/
def parseJStrGo : List Char → Option (List Char × List Char)
  | [] => none
  | '"' :: rest => some ([], rest)
  | '\\' :: esc =>
    (match esc with
     | '"' :: r => (parseJStrGo r).map (fun p => ('"' :: p.1, p.2))
     | '\\' :: r => (parseJStrGo r).map (fun p => ('\\' :: p.1, p.2))
     | '/' :: r => (parseJStrGo r).map (fun p => ('/' :: p.1, p.2))
     | 'b' :: r => (parseJStrGo r).map (fun p => ('\x08' :: p.1, p.2))
     | 'f' :: r => (parseJStrGo r).map (fun p => ('\x0c' :: p.1, p.2))
     | 'n' :: r => (parseJStrGo r).map (fun p => ('\n' :: p.1, p.2))
     | 'r' :: r => (parseJStrGo r).map (fun p => ('\r' :: p.1, p.2))
     | 't' :: r => (parseJStrGo r).map (fun p => ('\t' :: p.1, p.2))
     | 'u' :: h1 :: h2 :: h3 :: h4 :: r =>
       (match hexVal h1, hexVal h2, hexVal h3, hexVal h4 with
        | some a, some b, some c, some d =>
          (parseJStrGo r).map
            (fun p => (Char.ofNat (((a * 16 + b) * 16 + c) * 16 + d) :: p.1, p.2))
        | _, _, _, _ => none)
     | _ => none)
  | c :: rest =>
    if c.toNat < 32 then none
    else (parseJStrGo rest).map (fun p => (c :: p.1, p.2))

/-- Insert a key/value pair into an object under Python dict semantics:
a duplicate key keeps its first position but takes the new value. -/
def insertAssoc : List (String × JSON) → String → JSON → List (String × JSON)
  | [], k, v => [(k, v)]
  | (k1, v1) :: rest, k, v =>
    if k1 = k then (k1, v) :: rest else (k1, v1) :: insertAssoc rest k v

mutual

/-- Parse one JSON value (leading whitespace allowed). -/
def parseValue : ℕ → List Char → Option (JSON × List Char)
  | 0, _ => none
  | fuel + 1, cs =>
    match skipWs cs with
    | 'n' :: 'u' :: 'l' :: 'l' :: rest => some (JSON.null, rest)
    | 't' :: 'r' :: 'u' :: 'e' :: rest => some (JSON.bool true, rest)
    | 'f' :: 'a' :: 'l' :: 's' :: 'e' :: rest => some (JSON.bool false, rest)
    | '"' :: rest =>
      (parseJStrGo rest).map (fun p => (JSON.str (String.mk p.1), p.2))
    | '\x7b' :: rest =>
      (match skipWs rest with
       | '\x7d' :: r => some (JSON.obj [], r)
       | r => parseMemberList fuel r [])
    | '[' :: rest =>
      (match skipWs rest with
       | ']' :: r => some (JSON.arr [], r)
       | r => parseElemList fuel r [])
    | cs1 => (parseNumber cs1).map (fun p => (JSON.num p.1, p.2))

/-- Parse the members of a JSON object, positioned at a key string. -/
def parseMemberList : ℕ → List Char → List (String × JSON) →
    Option (JSON × List Char)
  | 0, _, _ => none
  | fuel + 1, cs, acc =>
    match cs with
    | '"' :: rest =>
      (match parseJStrGo rest with
       | none => none
       | some (k, r1) =>
         match skipWs r1 with
         | ':' :: r2 =>
           (match parseValue fuel r2 with
            | none => none
            | some (v, r3) =>
              let acc1 := insertAssoc acc (String.mk k) v
              match skipWs r3 with
              | ',' :: r4 => parseMemberList fuel (skipWs r4) acc1
              | '\x7d' :: r4 => some (JSON.obj acc1, r4)
              | _ => none)
         | _ => none)
    | _ => none

/-- Parse the elements of a JSON array, positioned at a value. -/
def parseElemList : ℕ → List Char → List JSON → Option (JSON × List Char)
  | 0, _, _ => none
  | fuel + 1, cs, acc =>
    match parseValue fuel cs with
    | none => none
    | some (v, r1) =>
      match skipWs r1 with
      | ',' :: r2 => parseElemList fuel r2 (acc ++ [v])
      | ']' :: r2 => some (JSON.arr (acc ++ [v]), r2)
      | _ => none

end

/-- json.loads: parse a complete JSON document; trailing non-whitespace
is an error ("Extra data"). -/
def json_loads (s : String) : Option JSON :=
  match parseValue (s.data.length + 1) s.data with
  | some (v, rest) => if (skipWs rest).isEmpty then some v else none
  | none => none

/-! ## Python string operations used by extract_json_from_text -/

/-- Python str whitespace (the ASCII part, which covers every input in
this development). -/
def isPyWs (c : Char) : Bool :=
  c = ' ' || c = '\t' || c = '\n' || c = '\r' || c = '\x0b' || c = '\x0c'

/-- Python str.strip(). -/
def pyStrip (s : String) : String :=
  String.mk (((s.data.dropWhile isPyWs).reverse.dropWhile isPyWs).reverse)

/-- Python str.rstrip(","): drop every trailing comma. -/
def rstripCommas (s : String) : String :=
  String.mk ((s.data.reverse.dropWhile (fun c => c = ',')).reverse)

/-- Python str.splitlines() restricted to the \n, \r\n and \r
terminators (the only ones occurring in this development). -/
def splitlinesGo : List Char → List Char → List String
  | [], acc => if acc.isEmpty then [] else [String.mk acc.reverse]
  | '\r' :: '\n' :: rest, acc => String.mk acc.reverse :: splitlinesGo rest []
  | '\r' :: rest, acc => String.mk acc.reverse :: splitlinesGo rest []
  | '\n' :: rest, acc => String.mk acc.reverse :: splitlinesGo rest []
  | c :: rest, acc => splitlinesGo rest (c :: acc)

/-- Python str.splitlines(). -/
def pySplitlines (s : String) : List String := splitlinesGo s.data []

/-- Python str.startswith. -/
def pyStartsWith (s p : String) : Bool := p.data.isPrefixOf s.data

/-- Python str.endswith. -/
def pyEndsWith (s p : String) : Bool := p.data.isSuffixOf s.data

/-- All indices at which needle occurs in hay (for nonempty needles). -/
def occGo (needle : List Char) : List Char → ℕ → List ℕ
  | [], _ => []
  | c :: t, i =>
    (if needle.isPrefixOf (c :: t) then [i] else []) ++ occGo needle t (i + 1)

/-- Python s.find(sub, start): index of the leftmost occurrence of sub
at or after start; None models the -1 result. -/
def pyFind (s sub : String) (start : ℕ) : Option ℕ :=
  ((occGo sub.data s.data 0).filter (fun i => decide (start ≤ i))).head?

/-- Python s.rfind(sub): index of the rightmost occurrence. -/
def pyRfind (s sub : String) : Option ℕ :=
  (occGo sub.data s.data 0).getLast?

/-- Python s.rfind(sub, start, stop): rightmost occurrence lying fully
inside s[start:stop]. -/
def pyRfindIn (s sub : String) (start stop : ℕ) : Option ℕ :=
  ((occGo sub.data s.data 0).filter
    (fun i => decide (start ≤ i ∧ i + sub.data.length ≤ stop))).getLast?

/-- Whether sub occurs in s (Python's `sub in s`). -/
def containsSub (s sub : String) : Bool := (pyFind s sub 0).isSome

/-- Python s[a:b] for nonnegative bounds (clamping, empty when b ≤ a). -/
def pySlice (s : String) (a b : ℕ) : String :=
  String.mk ((s.data.drop a).take (b - a))

/-! ## Text Recovery Parser
(extract_json_from_text, evaluation_helpers.py lines 80-202) -/

/-- The tolerant demjson3 parse, available only when the import on
lines 8-11 succeeded; its availability and behaviour are modelled as a
parameter. -/
def tryTolerant (demjson : Option (String → Option JSON)) (s : String) :
    Option JSON :=
  match demjson with
  | some d => d s
  | none => none

/-- Look up the "response" member of a parsed object, requiring a
string value (lines 104-105). -/
def lookupResponse (members : List (String × JSON)) : Option String :=
  match members.find? (fun p => decide (p.1 = "response")) with
  | some (_, JSON.str s) => some s
  | _ => none

/-- The naive "response" substring heuristic of lines 110-126: take
everything after the colon following "response", strip whitespace, drop
trailing commas, and strip one pair of surrounding double quotes. -/
def heuristicFragment (line : String) : Option String :=
  if containsSub line "\"response\"" then
    match pyFind line "\"response\"" 0 with
    | none => none
    | some idx =>
      match pyFind line ":" idx with
      | none => none
      | some colon =>
        let frag := pyStrip (pySlice line (colon + 1) line.data.length)
        let frag := rstripCommas frag
        let frag :=
          if pyStartsWith frag "\"" ∧ pyEndsWith frag "\"" ∧
              2 ≤ frag.data.length then
            pySlice frag 1 (frag.data.length - 1)
          else frag
        some frag
  else none

/-- The per-line step of the NDJSON streaming reassembly (lines
95-126): a stripped non-empty line contributes the string under its
"response" key when it parses as a JSON object, and otherwise the
heuristic fragment when "response" occurs in it. -/
def lineFragment (rawLine : String) : Option String :=
  let line := pyStrip rawLine
  if line.data.isEmpty then none
  else
    match
      (if pyStartsWith line "\x7b" then
        match json_loads line with
        | some (JSON.obj members) => lookupResponse members
        | _ => none
      else none) with
    | some s => some s
    | none => heuristicFragment line

/-- Model of the escape normalization on lines 131-136
(unicode_escape decoding): decode every well-formed \uXXXX escape and
keep all other characters.  (The only escapes this branch exists for
are < and >, per the guard that enables it; other
unicode_escape behaviour is not exercised in this development.) -/
def decodeUniGo : List Char → List Char
  | [] => []
  | '\\' :: 'u' :: h1 :: h2 :: h3 :: h4 :: rest =>
    (match hexVal h1, hexVal h2, hexVal h3, hexVal h4 with
     | some a, some b, some c, some d =>
       Char.ofNat (((a * 16 + b) * 16 + c) * 16 + d) :: decodeUniGo rest
     | _, _, _, _ => '\\' :: decodeUniGo ('u' :: h1 :: h2 :: h3 :: h4 :: rest))
  | c :: rest => c :: decodeUniGo rest

/-- Strategy 2, lines 144-155: regex-style extraction between the first
literal marker pair (leftmost start marker, then the earliest end
marker after it — the lazy-quantifier semantics of the source's
pattern), strict-parsed and then tolerantly parsed. -/
def stageMarker (demjson : Option (String → Option JSON)) (t : String) :
    Option JSON :=
  match pyFind t "<<JSON_START>>" 0 with
  | none => none
  | some i =>
    match pyFind t "<<JSON_END>>" (i + 14) with
    | none => none
    | some j =>
      let candidate := pyStrip (pySlice t (i + 14) j)
      match json_loads candidate with
      | some v => some v
      | none => tryTolerant demjson candidate

/-- Strategy 2b, lines 157-171: marker keywords present without literal
markers; take from the first brace after JSON_START to the last closing
brace before the last JSON_END (inclusive); an absent closing brace
makes the slice empty, as the source's rfind returns -1. -/
def stageKeyword (demjson : Option (String → Option JSON)) (t : String) :
    Option JSON :=
  if containsSub t "JSON_START" ∧ containsSub t "JSON_END" then
    match pyFind t "JSON_START" 0 with
    | none => none
    | some idx =>
      match pyFind t "\x7b" idx, pyRfind t "JSON_END" with
      | some brace_idx, some end_brace_idx =>
        if brace_idx < end_brace_idx then
          let candidate :=
            match pyRfindIn t "\x7d" idx end_brace_idx with
            | some rb => pySlice t brace_idx (rb + 1)
            | none => pySlice t brace_idx 0
          match json_loads candidate with
          | some v => some v
          | none => tryTolerant demjson candidate
        else none
      | _, _ => none
  else none

/-- The depth-counting scan of lines 176-182: absolute index of the
closing brace matching the first opening one (no string-literal
awareness, exactly as in the source). -/
def braceScanGo : List Char → ℕ → ℕ → Option ℕ
  | [], _, _ => none
  | c :: rest, depth, i =>
    if c = '\x7b' then braceScanGo rest (depth + 1) (i + 1)
    else if c = '\x7d' then
      if depth = 1 then some i else braceScanGo rest (depth - 1) (i + 1)
    else braceScanGo rest depth (i + 1)

/-- Strategy 3, lines 173-193: balanced-brace extraction of the first
brace span, strict then tolerant parse; only the first span is ever
tried (the source breaks out of the loop on failure). -/
def stageBraces (demjson : Option (String → Option JSON)) (t : String) :
    Option JSON :=
  match pyFind t "\x7b" 0 with
  | none => none
  | some start =>
    match braceScanGo (t.data.drop start) 0 start with
    | none => none
    | some iEnd =>
      let candidate := pySlice t start (iEnd + 1)
      match json_loads candidate with
      | some v => some v
      | none => tryTolerant demjson candidate

/-- extract_json_from_text (evaluation_helpers.py lines 80-202).  The
text parameter models the str case; the None and non-str cases of the
line 90 guard return the empty dict before any string operation, so
they are not modelled separately.  The demjson parameter models the
optional tolerant parser.  Returns the recovered JSON value, the empty
object on total failure. -/
def extract_json_from_text (demjson : Option (String → Option JSON))
    (text : String) : JSON :=
  if text.data.isEmpty then JSON.obj []
  else
    let assembled := (pySplitlines text).filterMap lineFragment
    let t1 := if assembled.isEmpty then text else String.join assembled
    let t2 :=
      if containsSub t1 "\\u003c" || containsSub t1 "\\u003e" then
        String.mk (decodeUniGo t1.data)
      else t1
    match json_loads t2 with
    | some v => v
    | none =>
      match stageMarker demjson t2 with
      | some v => v
      | none =>
        match stageKeyword demjson t2 with
        | some v => v
        | none =>
          match stageBraces demjson t2 with
          | some v => v
          | none =>
            match tryTolerant demjson t2 with
            | some v => v
            | none => JSON.obj []

/-! ## Finding Normalizer (coerce_line_number, evaluation_helpers.py
lines 22-38) -/

/-- A Python value as passed to coerce_line_number.  Floats are
modelled as exact rationals; `other` stands for any object on which
int() raises. -/
inductive PyValue where
  | none
  | bool (b : Bool)
  | int (n : ℤ)
  | float (q : ℚ)
  | str (s : String)
  | other

/-- Python int() applied to a float: truncation toward zero. -/
def ratTrunc (q : ℚ) : ℤ := q.num.tdiv q.den

/-- Model of Python float() on an already-stripped string: an optional
sign, digits with an optional decimal point (at least one digit), and
an optional exponent, valued exactly.  The inf/nan spellings are not
modelled: they make the source's int() raise, so the surrounding
try/except yields None exactly as a parse failure does.  Digit-grouping
underscores are not modelled. -/
def parseFloat? (s : String) : Option ℚ :=
  let cs := s.data
  let sign : Bool × List Char :=
    match cs with
    | '+' :: r => (false, r)
    | '-' :: r => (true, r)
    | r => (false, r)
  let ip := takeDigits sign.2
  let fp : List ℕ × List Char :=
    match ip.2 with
    | '.' :: r => takeDigits r
    | r => ([], r)
  if ip.1.isEmpty && fp.1.isEmpty then none
  else
    let ep : Option (ℤ × List Char) :=
      match fp.2 with
      | 'e' :: r =>
        (match r with
         | '+' :: r2 =>
           let t := takeDigits r2
           if t.1.isEmpty then none else some ((digitsToNat t.1 : ℤ), t.2)
         | '-' :: r2 =>
           let t := takeDigits r2
           if t.1.isEmpty then none else some (-(digitsToNat t.1 : ℤ), t.2)
         | r2 =>
           let t := takeDigits r2
           if t.1.isEmpty then none else some ((digitsToNat t.1 : ℤ), t.2))
      | 'E' :: r =>
        (match r with
         | '+' :: r2 =>
           let t := takeDigits r2
           if t.1.isEmpty then none else some ((digitsToNat t.1 : ℤ), t.2)
         | '-' :: r2 =>
           let t := takeDigits r2
           if t.1.isEmpty then none else some (-(digitsToNat t.1 : ℤ), t.2)
         | r2 =>
           let t := takeDigits r2
           if t.1.isEmpty then none else some ((digitsToNat t.1 : ℤ), t.2))
      | r => some (0, r)
    match ep with
    | none => none
    | some (e, rest) =>
      if rest.isEmpty then
        let mant : ℤ := (digitsToNat (ip.1 ++ fp.1) : ℤ)
        let mant : ℤ := if sign.1 then -mant else mant
        let scale : ℤ := e - (fp.1.length : ℤ)
        some (if 0 ≤ scale then mkRat (mant * (10 : ℤ) ^ scale.toNat) 1
          else mkRat mant ((10 : ℕ) ^ (-scale).toNat))
      else none

/-- coerce_line_number (evaluation_helpers.py lines 22-38): coerce to
int, returning None when invalid or ≤ 0.  Strings go through
float-then-int (truncation toward zero); any exception yields None. -/
def coerce_line_number : PyValue → Option ℤ
  | .none => Option.none
  | .str s =>
    let v := pyStrip s
    if v.data.isEmpty then Option.none
    else
      match parseFloat? v with
      | Option.none => Option.none
      | Option.some q =>
        let n := ratTrunc q
        if n ≤ 0 then Option.none else Option.some n
  | .bool b =>
    let n : ℤ := if b then 1 else 0
    if n ≤ 0 then Option.none else Option.some n
  | .int n => if n ≤ 0 then Option.none else Option.some n
  | .float q =>
    let n := ratTrunc q
    if n ≤ 0 then Option.none else Option.some n
  | .other => Option.none

/-! ## Lemmas about the Match Engine -/

/-- Closed form of the candidate loop's TP list: one optional record
per candidate, in candidate order. -/
theorem compareGo_tp (gt : List Entry) (tol : ℤ) (llm : List Entry) :
    (compareGo gt tol llm).1 =
      llm.filterMap (fun f => (matchFor gt tol f).map (tpRecOf f)) := by
  induction llm with
  | nil => rfl
  | cons f rest ih =>
    simp only [compareGo, List.filterMap_cons]
    cases h : matchFor gt tol f with
    | none =>
      simp only [matchFor] at h
      simp [h, ih, matchFor]
    | some t =>
      simp only [matchFor] at h
      simp [h, ih, tpRecOf, matchFor]

/-- Closed form of the candidate loop's FP list: the unmatched
candidates, in candidate order. -/
theorem compareGo_fp (gt : List Entry) (tol : ℤ) (llm : List Entry) :
    (compareGo gt tol llm).2.1 =
      llm.filter (fun f => (matchFor gt tol f).isNone) := by
  induction llm with
  | nil => rfl
  | cons f rest ih =>
    simp only [compareGo, List.filter_cons]
    cases h : matchFor gt tol f with
    | none => simp only [matchFor] at h; simp [h, ih]
    | some t => simp only [matchFor] at h; simp [h, ih]

/-- The gt_matched accumulator is exactly the truth entries of the TP
records. -/
theorem compareGo_matched (gt : List Entry) (tol : ℤ) (llm : List Entry) :
    (compareGo gt tol llm).2.2 = (compareGo gt tol llm).1.map truthEntryOf := by
  induction llm with
  | nil => rfl
  | cons f rest ih =>
    simp only [compareGo]
    cases h : matchFor gt tol f with
    | none => simp only [matchFor] at h; simp [h, ih]
    | some t => simp only [matchFor] at h; simp [h, ih, truthEntryOf, tpRecOf]

/-- Every candidate contributes exactly one record, TP or FP. -/
theorem compareGo_length (gt : List Entry) (tol : ℤ) (llm : List Entry) :
    (compareGo gt tol llm).1.length + (compareGo gt tol llm).2.1.length =
      llm.length := by
  induction llm with
  | nil => rfl
  | cons f rest ih =>
    simp only [compareGo]
    cases h : matchFor gt tol f with
    | none =>
      simp only [matchFor] at h
      simp only [h, List.length_cons]
      omega
    | some t =>
      simp only [matchFor] at h
      simp only [h, List.length_cons]
      omega

/-- Membership in a (contract, bug_type) bucket is membership of the
corresponding entry in the ground truth. -/
theorem mem_gt_lines (gt : List Entry) (c b : String) (ln : ℤ) :
    ln ∈ gt_lines_for gt c b ↔ (⟨c, b, ln⟩ : Entry) ∈ gt := by
  simp only [gt_lines_for, List.mem_map, List.mem_filter, decide_eq_true_eq]
  constructor
  · rintro ⟨e, ⟨hmem, hc, hb⟩, hl⟩
    cases e
    subst hc; subst hb; subst hl
    exact hmem
  · intro h
    exact ⟨⟨c, b, ln⟩, ⟨h, rfl, rfl⟩, rfl⟩

/-- A wider tolerance preserves matchability of a candidate. -/
theorem findMatch_isSome_mono (lines : List ℤ) {t1 t2 : ℤ} (h : t1 ≤ t2)
    (ln : ℤ) (hs : (findMatch lines t1 ln).isSome) :
    (findMatch lines t2 ln).isSome := by
  simp only [findMatch, List.find?_isSome, decide_eq_true_eq] at hs ⊢
  obtain ⟨x, hx, hp⟩ := hs
  exact ⟨x, hx, le_trans hp h⟩

/-- The TP count is monotone in the tolerance. -/
theorem compareGo_tp_length_mono (gt : List Entry) {t1 t2 : ℤ} (h : t1 ≤ t2)
    (llm : List Entry) :
    (compareGo gt t1 llm).1.length ≤ (compareGo gt t2 llm).1.length := by
  induction llm with
  | nil => exact Nat.le_refl _
  | cons f rest ih =>
    simp only [compareGo]
    cases h1 : matchFor gt t1 f with
    | none =>
      simp only [matchFor] at h1
      cases h2 : findMatch (gt_lines_for gt f.contract f.bug_type) t2
          f.line with
      | none => simpa [h1, h2] using ih
      | some t =>
        simp only [h1, h2, List.length_cons]
        exact le_trans ih (Nat.le_succ _)
    | some t =>
      simp only [matchFor] at h1
      have hs : (findMatch (gt_lines_for gt f.contract f.bug_type) t2
          f.line).isSome := by
        apply findMatch_isSome_mono _ h
        simp [h1]
      cases h2 : findMatch (gt_lines_for gt f.contract f.bug_type) t2
          f.line with
      | none => rw [h2] at hs; simp at hs
      | some t2v =>
        simp only [h1, h2, List.length_cons]
        omega

/-- At tolerance 0 the bucket scan finds exactly the candidate's own
line, when present. -/
theorem find_zero_tolerance (lines : List ℤ) (ln : ℤ) :
    lines.find? (fun t => decide (|t - ln| ≤ 0)) =
      if ln ∈ lines then some ln else none := by
  induction lines with
  | nil => simp
  | cons x rest ih =>
    by_cases hx : x = ln
    · subst hx
      simp [List.find?_cons]
    · have hx1 : ln ≠ x := Ne.symm hx
      have hd : ¬ (|x - ln| ≤ 0) := by
        rw [abs_nonpos_iff, sub_eq_zero]
        exact hx
      have hdec : (decide (|x - ln| ≤ 0)) = false := decide_eq_false hd
      simp only [List.find?_cons, hdec, ih, List.mem_cons]
      simp [hx1]

/-- At tolerance 0 a candidate's match is its own line, present in the
ground truth or not. -/
theorem matchFor_zero (gt : List Entry) (f : Entry) :
    matchFor gt 0 f = if f ∈ gt then some f.line else none := by
  obtain ⟨c, b, l⟩ := f
  rw [matchFor, findMatch, find_zero_tolerance]
  simp [mem_gt_lines]

/-- Turning an if-some-else-none filterMap into filter-then-map. -/
theorem filterMap_ite_eq_filter_map {α β : Type} (p : α → Prop)
    [DecidablePred p] (g : α → β) (l : List α) :
    l.filterMap (fun a => if p a then some (g a) else none) =
      (l.filter (fun a => decide (p a))).map g := by
  induction l with
  | nil => rfl
  | cons a t ih =>
    by_cases h : p a <;> simp [h, ih]

/-! ## Claim theorems for the Match Engine -/

/-- C1 counterexample: the claim's conjunct "each truth entry matches
at most one candidate" is false for the code.  With candidates
[(C1, X, 10), (C1, X, 10)], truth {(C1, X, 10)} and tolerance 0, the
single truth entry is referenced by two TP records, because the bucket
scan never skips entries already recorded in gt_matched. -/
theorem C1_counterexample :
    ((compare [(⟨"C1", "X", 10⟩ : Entry), ⟨"C1", "X", 10⟩]
        [(⟨"C1", "X", 10⟩ : Entry)] 0).TP.countP
      (fun r => decide (truthEntryOf r = ⟨"C1", "X", 10⟩)) = 2) ∧
    ([(⟨"C1", "X", 10⟩ : Entry)] : List Entry).length = 1 := by decide

/-- C1 (amended): for tolerance ≥ 0, |TP| + |FP| equals the number of
candidates; the TP list has at most one record per candidate (it is a
filterMap over the candidates); and every ground-truth entry is in
exactly one of (referenced by some TP record, present in FN).  A truth
entry may however be referenced by more than one TP record. -/
theorem C1_partition_amended (llm gt : List Entry) (tol : ℤ)
    (h : 0 ≤ tol) :
    ((compare llm gt tol).TP.length + (compare llm gt tol).FP.length =
      llm.length) ∧
    ((compare llm gt tol).TP =
      llm.filterMap (fun f => (matchFor gt tol f).map (tpRecOf f))) ∧
    (∀ e ∈ gt, ((∃ r ∈ (compare llm gt tol).TP, truthEntryOf r = e) ↔
      e ∉ (compare llm gt tol).FN)) := by
  refine ⟨?_, ?_, ?_⟩
  · simpa [compare] using compareGo_length gt tol llm
  · simpa [compare] using compareGo_tp gt tol llm
  · intro e he
    have hFN : e ∈ (compare llm gt tol).FN ↔
        e ∉ ((compareGo gt tol llm).1.map truthEntryOf) := by
      simp [compare, List.mem_filter, he, compareGo_matched]
    have hmap : (∃ r ∈ (compare llm gt tol).TP, truthEntryOf r = e) ↔
        e ∈ ((compareGo gt tol llm).1.map truthEntryOf) := by
      simp [compare, List.mem_map]
    rw [hmap, hFN]
    tauto

/-- C1 witness: the amended theorem applied at a concrete input. -/
theorem C1_partition_amended_witness :
    0 ≤ (0 : ℤ) ∧
    ((compare [(⟨"a", "b", 5⟩ : Entry)] [(⟨"a", "b", 5⟩ : Entry)] 0).TP.length
      + (compare [(⟨"a", "b", 5⟩ : Entry)]
          [(⟨"a", "b", 5⟩ : Entry)] 0).FP.length = 1) :=
  ⟨by decide,
    (C1_partition_amended [⟨"a", "b", 5⟩] [⟨"a", "b", 5⟩] 0 (by decide)).1⟩

/-- C3 counterexample: raising the tolerance from 0 to 10 increases the
number of FN records on candidates [(c, b, 20), (c, b, 10)] and truth
iterated as [(c, b, 10), (c, b, 20)]: at the wider tolerance both
candidates match the first bucket entry (line 10), so line 20 becomes
an FN. -/
theorem C3_counterexample :
    (0 : ℤ) ≤ 10 ∧
    ¬ ((compare [(⟨"c", "b", 20⟩ : Entry), ⟨"c", "b", 10⟩]
        [(⟨"c", "b", 10⟩ : Entry), ⟨"c", "b", 20⟩] 10).FN.length ≤
      (compare [(⟨"c", "b", 20⟩ : Entry), ⟨"c", "b", 10⟩]
        [(⟨"c", "b", 10⟩ : Entry), ⟨"c", "b", 20⟩] 0).FN.length) := by decide

/-- C3 (amended): for fixed candidates and ground truth, increasing the
tolerance never decreases the number of TP records.  (The FN count is
not monotone, as the counterexample shows.) -/
theorem C3_tp_monotone (llm gt : List Entry) (t1 t2 : ℤ) (h : t1 ≤ t2) :
    (compare llm gt t1).TP.length ≤ (compare llm gt t2).TP.length := by
  simpa [compare] using compareGo_tp_length_mono gt h llm

/-- C3 witness: the amended theorem applied at a concrete input. -/
theorem C3_tp_monotone_witness :
    (0 : ℤ) ≤ 10 ∧
    (compare [(⟨"c", "b", 20⟩ : Entry)]
        [(⟨"c", "b", 10⟩ : Entry)] 0).TP.length ≤
      (compare [(⟨"c", "b", 20⟩ : Entry)]
        [(⟨"c", "b", 10⟩ : Entry)] 10).TP.length :=
  ⟨by decide, C3_tp_monotone _ _ 0 10 (by decide)⟩

/-- C4 counterexample: at tolerance 0, the second of two identical
candidates equals a truth entry that is already consumed by the first,
so under the claim it would have to be an FP; the code records both as
TP (2 TP records against a single truth entry, and no FP). -/
theorem C4_counterexample :
    ((compare [(⟨"C1", "Re-entrancy", 10⟩ : Entry), ⟨"C1", "Re-entrancy", 10⟩]
        [(⟨"C1", "Re-entrancy", 10⟩ : Entry)] 0).TP.length = 2) ∧
    ((compare [(⟨"C1", "Re-entrancy", 10⟩ : Entry), ⟨"C1", "Re-entrancy", 10⟩]
        [(⟨"C1", "Re-entrancy", 10⟩ : Entry)] 0).FP = []) ∧
    ([(⟨"C1", "Re-entrancy", 10⟩ : Entry)] : List Entry).length = 1 := by
  decide

/-- C4 (amended): with tolerance 0, a candidate is recorded as TP if
and only if its exact (artifact, category, position) tuple equals some
ground-truth entry — consumed or not — and as FP otherwise; the TP
record pairs the candidate with its own line (offset 0). -/
theorem C4_zero_tolerance (llm gt : List Entry) :
    ((compare llm gt 0).TP =
      (llm.filter (fun f => decide (f ∈ gt))).map
        (fun f => tpRecOf f f.line)) ∧
    ((compare llm gt 0).FP = llm.filter (fun f => decide (f ∉ gt))) := by
  constructor
  · have h1 : (compare llm gt 0).TP =
        llm.filterMap (fun f => (matchFor gt 0 f).map (tpRecOf f)) := by
      simpa [compare] using compareGo_tp gt 0 llm
    have h2 : (fun f => (matchFor gt 0 f).map (tpRecOf f)) =
        (fun f : Entry =>
          if f ∈ gt then some (tpRecOf f f.line) else none) := by
      funext f
      rw [matchFor_zero]
      by_cases h : f ∈ gt <;> simp [h]
    rw [h1, h2, filterMap_ite_eq_filter_map]
  · have h1 : (compare llm gt 0).FP =
        llm.filter (fun f => (matchFor gt 0 f).isNone) := by
      simpa [compare] using compareGo_fp gt 0 llm
    have h2 : (fun f => (matchFor gt 0 f).isNone) =
        (fun f : Entry => decide (f ∉ gt)) := by
      funext f
      rw [matchFor_zero]
      by_cases h : f ∈ gt <;> simp [h]
    rw [h1, h2]

/-- C7: Scenario A.  truth = {(C1, Re-entrancy, 10)}, candidates =
[(C1, Re-entrancy, 11)], tolerance 2: exactly one TP with offset
diff = 11 - 10 = +1, no FP, no FN. -/
theorem C7_scenario_A :
    compare [(⟨"C1", "Re-entrancy", 11⟩ : Entry)]
        [(⟨"C1", "Re-entrancy", 10⟩ : Entry)] 2 =
      { TP := [⟨"C1", "Re-entrancy", 11, 10, 1⟩], FP := [], FN := [] } := by
  decide

/-- C9: matching never crosses (artifact, category) keys: every TP
record's truth entry — carrying the record's own contract and bug_type
— is a ground-truth entry, and its candidate is among the findings.
The truth entry matched therefore has exactly the candidate's contract
and bug_type strings. -/
theorem C9_exact_key (llm gt : List Entry) (tol : ℤ) (r : TPRec)
    (hr : r ∈ (compare llm gt tol).TP) :
    candEntryOf r ∈ llm ∧ truthEntryOf r ∈ gt := by
  have h1 : (compare llm gt tol).TP =
      llm.filterMap (fun f => (matchFor gt tol f).map (tpRecOf f)) := by
    simpa [compare] using compareGo_tp gt tol llm
  rw [h1, List.mem_filterMap] at hr
  obtain ⟨f, hf, hmap⟩ := hr
  rw [Option.map_eq_some'] at hmap
  obtain ⟨t, hmt, hrt⟩ := hmap
  subst hrt
  constructor
  · show (⟨f.contract, f.bug_type, f.line⟩ : Entry) ∈ llm
    obtain ⟨c, b, l⟩ := f
    exact hf
  · show (⟨f.contract, f.bug_type, t⟩ : Entry) ∈ gt
    rw [← mem_gt_lines]
    exact List.mem_of_find?_eq_some hmt

/-- C9 witness: the theorem applied at a concrete input. -/
theorem C9_exact_key_witness :
    candEntryOf ⟨"a", "b", 5, 5, 0⟩ ∈ [(⟨"a", "b", 5⟩ : Entry)] ∧
    truthEntryOf ⟨"a", "b", 5, 5, 0⟩ ∈ [(⟨"a", "b", 5⟩ : Entry)] :=
  C9_exact_key [⟨"a", "b", 5⟩] [⟨"a", "b", 5⟩] 0 ⟨"a", "b", 5, 5, 0⟩
    (by decide)

/-! ## Lemmas about rounding and the Metrics Calculator -/

/-- The integer quotient inside roundHalfEven is the floor of q. -/
theorem num_fdiv_den_eq_floor (q : ℚ) : q.num.fdiv q.den = ⌊q⌋ := by
  rw [Int.fdiv_eq_ediv _ (by positivity : (0 : ℤ) ≤ (q.den : ℤ))]
  exact Rat.floor_def.symm

/-- roundHalfEven never rounds below the floor. -/
theorem roundHalfEven_ge_floor (q : ℚ) : ⌊q⌋ ≤ roundHalfEven q := by
  simp only [roundHalfEven, num_fdiv_den_eq_floor]
  split_ifs <;> omega

/-- roundHalfEven never rounds above the ceiling. -/
theorem roundHalfEven_le_floor_add_one (q : ℚ) :
    roundHalfEven q ≤ ⌊q⌋ + 1 := by
  simp only [roundHalfEven, num_fdiv_den_eq_floor]
  split_ifs <;> omega

/-- roundHalfEven of a nonnegative rational is nonnegative. -/
theorem roundHalfEven_nonneg (q : ℚ) (h : 0 ≤ q) : 0 ≤ roundHalfEven q :=
  le_trans (Int.floor_nonneg.mpr h) (roundHalfEven_ge_floor q)

/-- roundHalfEven never exceeds an integer upper bound of q (rounding
up only happens when the fractional part is nonzero). -/
theorem roundHalfEven_le_int (q : ℚ) (n : ℤ) (h : q ≤ (n : ℚ)) :
    roundHalfEven q ≤ n := by
  have hfl : ⌊q⌋ ≤ n := by
    have := Int.floor_le_floor h
    rwa [Int.floor_intCast] at this
  have hmod : q.num - q.num.fdiv q.den * q.den = q.num % q.den := by
    rw [num_fdiv_den_eq_floor, Rat.floor_def, Int.emod_def]
    ring
  have hint : q.num % (q.den : ℤ) = 0 → (⌊q⌋ : ℚ) = q := by
    intro h0
    have hdvd : (q.den : ℤ) ∣ q.num := Int.dvd_of_emod_eq_zero h0
    rw [Rat.floor_def]
    obtain ⟨k, hk⟩ := hdvd
    rw [hk]
    have hden : (q.den : ℤ) ≠ 0 := by positivity
    rw [Int.mul_ediv_cancel_left _ hden]
    rw [← Rat.num_div_den q, hk]
    push_cast
    rw [mul_comm]
    rw [mul_div_assoc]
    rw [div_self (by exact_mod_cast hden)]
    ring
  have hup : (0 : ℤ) < q.num % q.den → ⌊q⌋ + 1 ≤ n := by
    intro hpos
    rcases lt_or_eq_of_le hfl with hlt | heq
    · omega
    · exfalso
      have hqn : (⌊q⌋ : ℚ) ≤ q := Int.floor_le q
      rw [heq] at hqn
      have hqeq : q = (n : ℚ) := le_antisymm h hqn
      have : q.num % (q.den : ℤ) = 0 := by
        rw [hqeq]
        have h1 : ((n : ℚ) : ℚ).num = n := Rat.num_intCast n
        have h2 : ((n : ℚ) : ℚ).den = 1 := Rat.den_intCast n
        rw [h1, h2]
        simp
      omega
  have hmodpos : 0 ≤ q.num % (q.den : ℤ) :=
    Int.emod_nonneg _ (by positivity)
  have hmodlt : q.num % (q.den : ℤ) < q.den :=
    Int.emod_lt_of_pos _ (by positivity)
  simp only [roundHalfEven, num_fdiv_den_eq_floor]
  rw [num_fdiv_den_eq_floor] at hmod
  split_ifs with h1 h2 h3
  · exact hfl
  · rw [hmod] at h2
    exact hup (by omega)
  · exact hfl
  · rw [hmod] at h1 h2
    exact hup (by omega)

/-- round4 of a rational in the unit interval stays in it. -/
theorem round4_mem_unit (q : ℚ) (h0 : 0 ≤ q) (h1 : q ≤ 1) :
    0 ≤ round4 q ∧ round4 q ≤ 1 := by
  have hy0 : 0 ≤ q * 10000 := by positivity
  have hy1 : q * 10000 ≤ ((10000 : ℤ) : ℚ) := by push_cast; nlinarith
  have hl : 0 ≤ roundHalfEven (q * 10000) := roundHalfEven_nonneg _ hy0
  have hu : roundHalfEven (q * 10000) ≤ 10000 :=
    roundHalfEven_le_int _ 10000 hy1
  constructor
  · rw [round4]
    apply div_nonneg _ (by norm_num)
    exact_mod_cast hl
  · rw [round4, div_le_one (by norm_num)]
    exact_mod_cast hu

/-- round4 fixes zero. -/
theorem round4_zero : round4 0 = 0 := by
  rw [round4]
  have h : (0 : ℚ) * 10000 = 0 := by ring
  rw [h]
  have h2 : roundHalfEven 0 = 0 := by decide
  rw [h2]
  norm_num

/-- The count ratio of the precision and recall formulas is in [0, 1]. -/
theorem ratio_mem_unit (a b : ℕ) :
    0 ≤ (if a + b > 0 then (a : ℚ) / ((a : ℚ) + (b : ℚ)) else 0) ∧
    (if a + b > 0 then (a : ℚ) / ((a : ℚ) + (b : ℚ)) else 0) ≤ 1 := by
  split_ifs with h
  · have hb : (0 : ℚ) < (a : ℚ) + (b : ℚ) := by
      have : (0 : ℚ) < ((a + b : ℕ) : ℚ) := by exact_mod_cast h
      push_cast at this
      linarith
    constructor
    · positivity
    · rw [div_le_one hb]
      have : (0 : ℚ) ≤ (b : ℚ) := Nat.cast_nonneg b
      linarith
  · norm_num

/-- The harmonic-mean f1 formula is in [0, 1] for inputs in [0, 1]. -/
theorem f1_mem_unit (p r : ℚ) (hp0 : 0 ≤ p) (hp1 : p ≤ 1) (hr0 : 0 ≤ r)
    (hr1 : r ≤ 1) :
    0 ≤ (if p + r > 0 then 2 * (p * r) / (p + r) else 0) ∧
    (if p + r > 0 then 2 * (p * r) / (p + r) else 0) ≤ 1 := by
  split_ifs with h
  · constructor
    · positivity
    · rw [div_le_one h]
      nlinarith
  · norm_num

/-- C5 counterexample: compute_metrics rounds to 4 decimal places, so
for tp = 1, fp = 2, fn = 0 the returned precision is 0.3333, not the
claimed tp / (tp + fp) = 1/3. -/
theorem C5_counterexample :
    (compute_metrics 1 2 0).precision ≠ (1 : ℚ) / 3 ∧
    (compute_metrics 1 2 0).precision = 3333 / 10000 := by
  have hval : (compute_metrics 1 2 0).precision = round4 ((1 : ℚ) / 3) := by
    simp only [compute_metrics]
    norm_num
  have harg : (1 : ℚ) / 3 * 10000 = Rat.divInt 10000 3 := by
    rw [Rat.divInt_eq_div]
    norm_num
  have hr : roundHalfEven (Rat.divInt 10000 3) = 3333 := by decide
  rw [hval, round4, harg, hr]
  constructor
  · norm_num
  · norm_num

/-- C5 (amended): compute_metrics returns the three claimed formula
values rounded to 4 decimal places (ties to even); all three results
lie in [0, 1] for all nonnegative integer counts, and all three are 0
when tp = fp = fn = 0. -/
theorem C5_metrics_bounds (tp fp fn : ℕ) :
    ((compute_metrics tp fp fn).precision =
      round4 (if tp + fp > 0 then (tp : ℚ) / ((tp : ℚ) + (fp : ℚ)) else 0)) ∧
    ((compute_metrics tp fp fn).«recall» =
      round4 (if tp + fn > 0 then (tp : ℚ) / ((tp : ℚ) + (fn : ℚ)) else 0)) ∧
    ((compute_metrics tp fp fn).f1_score =
      round4
        (if (if tp + fp > 0 then (tp : ℚ) / ((tp : ℚ) + (fp : ℚ)) else 0) +
            (if tp + fn > 0 then (tp : ℚ) / ((tp : ℚ) + (fn : ℚ)) else 0) >
            0 then
          2 * ((if tp + fp > 0 then (tp : ℚ) / ((tp : ℚ) + (fp : ℚ)) else 0) *
            (if tp + fn > 0 then (tp : ℚ) / ((tp : ℚ) + (fn : ℚ)) else 0)) /
          ((if tp + fp > 0 then (tp : ℚ) / ((tp : ℚ) + (fp : ℚ)) else 0) +
            (if tp + fn > 0 then (tp : ℚ) / ((tp : ℚ) + (fn : ℚ)) else 0))
        else 0)) ∧
    (0 ≤ (compute_metrics tp fp fn).precision ∧
      (compute_metrics tp fp fn).precision ≤ 1) ∧
    (0 ≤ (compute_metrics tp fp fn).«recall» ∧
      (compute_metrics tp fp fn).«recall» ≤ 1) ∧
    (0 ≤ (compute_metrics tp fp fn).f1_score ∧
      (compute_metrics tp fp fn).f1_score ≤ 1) ∧
    compute_metrics 0 0 0 =
      { precision := 0, «recall» := 0, f1_score := 0 } := by
  obtain ⟨hp0, hp1⟩ := ratio_mem_unit tp fp
  obtain ⟨hr0, hr1⟩ := ratio_mem_unit tp fn
  obtain ⟨hf0, hf1⟩ := f1_mem_unit _ _ hp0 hp1 hr0 hr1
  refine ⟨rfl, rfl, rfl, ?_, ?_, ?_, ?_⟩
  · exact round4_mem_unit _ hp0 hp1
  · exact round4_mem_unit _ hr0 hr1
  · exact round4_mem_unit _ hf0 hf1
  · simp [compute_metrics, round4_zero]

/-! ## Lemmas about the category breakdown -/

/-- Sum of an indicator over a list without the indicated element. -/
theorem sum_ite_eq_zero (x : String) (ks : List String) (hx : x ∉ ks) :
    (ks.map (fun k => if x = k then 1 else 0)).sum = 0 := by
  induction ks with
  | nil => rfl
  | cons k t ih =>
    have hxk : x ≠ k := fun h => hx (h ▸ List.mem_cons_self k t)
    have hxt : x ∉ t := fun h => hx (List.mem_cons_of_mem _ h)
    simp [hxk, ih hxt]

/-- Sum of an indicator over a duplicate-free list containing the
indicated element. -/
theorem sum_ite_eq_one (x : String) (ks : List String) (hN : ks.Nodup)
    (hx : x ∈ ks) :
    (ks.map (fun k => if x = k then 1 else 0)).sum = 1 := by
  induction ks with
  | nil => cases hx
  | cons k t ih =>
    rcases List.mem_cons.mp hx with h | h
    · subst h
      have hxt : x ∉ t := (List.nodup_cons.mp hN).1
      simp [sum_ite_eq_zero x t hxt]
    · have hkx : x ≠ k := by
        intro he
        exact (List.nodup_cons.mp hN).1 (he ▸ h)
      simp [hkx, ih (List.nodup_cons.mp hN).2 h]

/-- Pointwise addition distributes over a mapped sum. -/
theorem map_sum_add (f g : String → ℕ) (ks : List String) :
    (ks.map (fun k => f k + g k)).sum = (ks.map f).sum + (ks.map g).sum := by
  induction ks with
  | nil => rfl
  | cons k t ih => simp [ih]; omega

/-- Grouping a list by key over a duplicate-free, covering key list and
summing the group sizes recovers the list length. -/
theorem sum_countP_eq_length {α : Type} (key : α → String) (l : List α)
    (ks : List String) (hN : ks.Nodup) (hC : ∀ a ∈ l, key a ∈ ks) :
    (ks.map (fun k => l.countP (fun a => decide (key a = k)))).sum =
      l.length := by
  induction l with
  | nil => simp
  | cons a t ih =>
    have hC1 : ∀ b ∈ t, key b ∈ ks :=
      fun b hb => hC b (List.mem_cons_of_mem _ hb)
    have h1 : (ks.map
        (fun k => (a :: t).countP (fun b => decide (key b = k)))).sum =
        (ks.map (fun k => t.countP (fun b => decide (key b = k)) +
          (if key a = k then 1 else 0))).sum := by
      congr 1
      apply List.map_congr_left
      intro k _
      simp [List.countP_cons]
    rw [h1, map_sum_add, ih hC1,
      sum_ite_eq_one (key a) ks hN (hC a (List.mem_cons_self a t))]
    simp

/-- The sorted key list of the breakdown is duplicate-free. -/
theorem bugTypeKeys_sorted_nodup (tp_list : List TPRec)
    (fp_list fn_list : List Entry) :
    (List.insertionSort (fun a b : String => a ≤ b)
      (bugTypeKeys tp_list fp_list fn_list)).Nodup := by
  have hperm := List.perm_insertionSort (fun a b : String => a ≤ b)
    (bugTypeKeys tp_list fp_list fn_list)
  exact hperm.nodup_iff.mpr (List.nodup_dedup _)

/-- Every record's bug type appears among the sorted keys. -/
theorem mem_bugTypeKeys_sorted (tp_list : List TPRec)
    (fp_list fn_list : List Entry) (b : String)
    (hb : b ∈ tp_list.map (fun r => r.bug_type) ∨
      b ∈ fp_list.map (fun r => r.bug_type) ∨
      b ∈ fn_list.map (fun r => r.bug_type)) :
    b ∈ List.insertionSort (fun a b : String => a ≤ b)
      (bugTypeKeys tp_list fp_list fn_list) := by
  have hperm := List.perm_insertionSort (fun a b : String => a ≤ b)
    (bugTypeKeys tp_list fp_list fn_list)
  rw [hperm.mem_iff, bugTypeKeys, List.mem_dedup]
  rcases hb with h | h | h
  · exact List.mem_append_left _ (List.mem_append_left _ h)
  · exact List.mem_append_left _ (List.mem_append_right _ h)
  · exact List.mem_append_right _ h

/-- C6: the breakdown consists of per-bug-type rows followed by one
Overall row; each per-type row counts the TP/FP/FN records of its key
and applies the same formulas as compute_metrics; and the Overall row's
counts — obtained by summing the per-row counts — equal the total
TP/FP/FN counts, with its metrics equal to compute_metrics applied to
those totals (so Overall is not an average of per-category scores). -/
theorem C6_overall_from_sums (tp_list : List TPRec)
    (fp_list fn_list : List Entry) :
    ∃ rows : List MetricsRow,
      generate_metrics_by_bug_type tp_list fp_list fn_list =
        rows ++ [overallRow rows] ∧
      (∀ row ∈ rows,
        row.TP = tp_list.countP (fun r => decide (r.bug_type = row.Bug_Type)) ∧
        row.FP = fp_list.countP (fun r => decide (r.bug_type = row.Bug_Type)) ∧
        row.FN = fn_list.countP (fun r => decide (r.bug_type = row.Bug_Type)) ∧
        row.Precision = (compute_metrics row.TP row.FP row.FN).precision ∧
        row.Recall = (compute_metrics row.TP row.FP row.FN).«recall» ∧
        row.F1_Score = (compute_metrics row.TP row.FP row.FN).f1_score) ∧
      ((overallRow rows).TP = tp_list.length ∧
        (overallRow rows).FP = fp_list.length ∧
        (overallRow rows).FN = fn_list.length) ∧
      ((overallRow rows).Precision =
        (compute_metrics tp_list.length fp_list.length
          fn_list.length).precision ∧
        (overallRow rows).Recall =
          (compute_metrics tp_list.length fp_list.length
            fn_list.length).«recall» ∧
        (overallRow rows).F1_Score =
          (compute_metrics tp_list.length fp_list.length
            fn_list.length).f1_score) := by
  have hN := bugTypeKeys_sorted_nodup tp_list fp_list fn_list
  refine ⟨(List.insertionSort (fun a b : String => a ≤ b)
    (bugTypeKeys tp_list fp_list fn_list)).map
      (rowFor tp_list fp_list fn_list), rfl, ?_, ?_, ?_⟩
  case _ =>
    intro row hrow
    obtain ⟨bt, _, hbt⟩ := List.mem_map.mp hrow
    subst hbt
    exact ⟨rfl, rfl, rfl, rfl, rfl, rfl⟩
  case _ =>
    refine ⟨?_, ?_, ?_⟩
    · show ((List.insertionSort _ _).map (rowFor tp_list fp_list fn_list)
        |>.map (fun m => m.TP)).sum = tp_list.length
      rw [List.map_map]
      exact sum_countP_eq_length (fun r => r.bug_type) tp_list _ hN
        (fun a ha => mem_bugTypeKeys_sorted _ _ _ _
          (Or.inl (List.mem_map_of_mem _ ha)))
    · show ((List.insertionSort _ _).map (rowFor tp_list fp_list fn_list)
        |>.map (fun m => m.FP)).sum = fp_list.length
      rw [List.map_map]
      exact sum_countP_eq_length (fun r => r.bug_type) fp_list _ hN
        (fun a ha => mem_bugTypeKeys_sorted _ _ _ _
          (Or.inr (Or.inl (List.mem_map_of_mem _ ha))))
    · show ((List.insertionSort _ _).map (rowFor tp_list fp_list fn_list)
        |>.map (fun m => m.FN)).sum = fn_list.length
      rw [List.map_map]
      exact sum_countP_eq_length (fun r => r.bug_type) fn_list _ hN
        (fun a ha => mem_bugTypeKeys_sorted _ _ _ _
          (Or.inr (Or.inr (List.mem_map_of_mem _ ha))))
  case _ =>
    set rows := (List.insertionSort (fun a b : String => a ≤ b)
      (bugTypeKeys tp_list fp_list fn_list)).map
        (rowFor tp_list fp_list fn_list) with hrows
    have htp : (overallRow rows).TP = tp_list.length := by
      rw [hrows]
      show ((List.insertionSort _ _).map (rowFor tp_list fp_list fn_list)
        |>.map (fun m => m.TP)).sum = tp_list.length
      rw [List.map_map]
      exact sum_countP_eq_length (fun r => r.bug_type) tp_list _ hN
        (fun a ha => mem_bugTypeKeys_sorted _ _ _ _
          (Or.inl (List.mem_map_of_mem _ ha)))
    have hfp : (overallRow rows).FP = fp_list.length := by
      rw [hrows]
      show ((List.insertionSort _ _).map (rowFor tp_list fp_list fn_list)
        |>.map (fun m => m.FP)).sum = fp_list.length
      rw [List.map_map]
      exact sum_countP_eq_length (fun r => r.bug_type) fp_list _ hN
        (fun a ha => mem_bugTypeKeys_sorted _ _ _ _
          (Or.inr (Or.inl (List.mem_map_of_mem _ ha))))
    have hfn : (overallRow rows).FN = fn_list.length := by
      rw [hrows]
      show ((List.insertionSort _ _).map (rowFor tp_list fp_list fn_list)
        |>.map (fun m => m.FN)).sum = fn_list.length
      rw [List.map_map]
      exact sum_countP_eq_length (fun r => r.bug_type) fn_list _ hN
        (fun a ha => mem_bugTypeKeys_sorted _ _ _ _
          (Or.inr (Or.inr (List.mem_map_of_mem _ ha))))
    have hP : (overallRow rows).Precision =
        (compute_metrics (overallRow rows).TP (overallRow rows).FP
          (overallRow rows).FN).precision := rfl
    have hR : (overallRow rows).Recall =
        (compute_metrics (overallRow rows).TP (overallRow rows).FP
          (overallRow rows).FN).«recall» := rfl
    have hF : (overallRow rows).F1_Score =
        (compute_metrics (overallRow rows).TP (overallRow rows).FP
          (overallRow rows).FN).f1_score := rfl
    rw [htp, hfp, hfn] at hP hR hF
    exact ⟨hP, hR, hF⟩

/-! ## Claim theorems for the Text Recovery Parser and Normalizer -/

/-- C2: the contract "recover always returns a mapping" is violated by
the code.  When the whole text strict-parses to a non-object JSON
value, extract_json_from_text returns that value unchanged: the input
"[1, 2]" yields a JSON array, not a dict, whatever the tolerant-parser
availability — contradicting the function's own docstring ("Returns
parsed dict or empty dict on failure") and its dict return annotation. -/
theorem C2_nondict_return (demjson : Option (String → Option JSON)) :
    extract_json_from_text demjson "[1, 2]" =
      JSON.arr [JSON.num 1, JSON.num 2] ∧
    (extract_json_from_text demjson "[1, 2]").isObj = false :=
  ⟨rfl, rfl⟩

/-- C8: Scenario D.  On the marker-wrapped text, the direct whole-text
parse fails, the marker stage strict-parses the substring between the
literal marker tokens, and recover returns exactly the parsed findings
object — independently of tolerant-parser availability. -/
theorem C8_scenario_D (demjson : Option (String → Option JSON)) :
    json_loads "reasoning...\n<<JSON_START>>\x7b\"findings\": [\x7b\"line_number\": 7\x7d]\x7d<<JSON_END>>\ntrailer" =
      Option.none ∧
    stageMarker demjson
      "reasoning...\n<<JSON_START>>\x7b\"findings\": [\x7b\"line_number\": 7\x7d]\x7d<<JSON_END>>\ntrailer" =
      Option.some (JSON.obj
        [("findings", JSON.arr [JSON.obj [("line_number", JSON.num 7)]])]) ∧
    extract_json_from_text demjson
      "reasoning...\n<<JSON_START>>\x7b\"findings\": [\x7b\"line_number\": 7\x7d]\x7d<<JSON_END>>\ntrailer" =
      JSON.obj [("findings", JSON.arr [JSON.obj [("line_number", JSON.num 7)]])] :=
  ⟨rfl, rfl, rfl⟩

/-- C10: coerce_line_number returns None or a strictly positive
integer on every input; fractional numeric strings are truncated toward
zero rather than rejected or rounded ("1.9" coerces to 1, "0.9"
truncates to 0 and returns None), and True coerces to 1. -/
theorem C10_coerce_line_number :
    (∀ v : PyValue, coerce_line_number v = Option.none ∨
      ∃ n : ℤ, coerce_line_number v = Option.some n ∧ 0 < n) ∧
    coerce_line_number (PyValue.str "1.9") = Option.some 1 ∧
    coerce_line_number (PyValue.str "0.9") = Option.none ∧
    coerce_line_number (PyValue.bool true) = Option.some 1 := by
  refine ⟨?_, rfl, rfl, rfl⟩
  intro v
  cases v with
  | none => exact Or.inl rfl
  | other => exact Or.inl rfl
  | bool b =>
    cases b with
    | false => exact Or.inl rfl
    | true => exact Or.inr ⟨1, rfl, one_pos⟩
  | int n =>
    by_cases h : n ≤ 0
    · exact Or.inl (by simp [coerce_line_number, h])
    · exact Or.inr ⟨n, by simp [coerce_line_number, h], by omega⟩
  | float q =>
    by_cases h : ratTrunc q ≤ 0
    · exact Or.inl (by simp [coerce_line_number, h])
    · exact Or.inr ⟨ratTrunc q, by simp [coerce_line_number, h], by omega⟩
  | str s =>
    simp only [coerce_line_number]
    by_cases h1 : (pyStrip s).data.isEmpty
    · simp [h1]
    · simp only [h1, if_false]
      cases hp : parseFloat? (pyStrip s) with
      | none => exact Or.inl rfl
      | some q =>
        by_cases h2 : ratTrunc q ≤ 0
        · exact Or.inl (by simp [h2])
        · exact Or.inr ⟨ratTrunc q, by simp [h2], by omega⟩

end Score
